import Mathlib

/-!
Shallow embedding of the filter/sort data-view engine of the publication
dashboard (src/spike/frontend/src/components/mainView.tsx, with the state
handlers of the search bar), together with proofs about its behaviour.

JavaScript built-ins are modelled as total Lean functions over the value
shapes this code actually passes them:
* `Number(x)` on strings is modelled on optionally signed integer literals
  (the shape of PMID bounds); every other non-empty string is NaN (`none`).
* `new Date(s).getTime()` is modelled on the ISO-like forms `YYYY-MM-DD`
  (UTC midnight) and `YYYY-MM-DDTHH:MM:SSZ`; every other string is an
  Invalid Date, i.e. NaN (`none`).
* `localeCompare(_, undefined, {numeric: true, sensitivity: "base"})` is
  modelled as case-insensitive comparison with maximal digit runs compared
  numerically.
* `Array.prototype.sort` is modelled as a stable insertion sort (ECMAScript
  specifies the sort to be stable).
NaN results and NaN-valued comparisons are represented with `Option`:
`none` is NaN, and any `>=`/`<=` against NaN is false, as in JavaScript.
-/

namespace Spike

/-- The `pmid` field of a record is `string | number` in the source. -/
inductive StrNum where
  | str (s : String)
  | num (n : Int)
deriving DecidableEq

/-- Publication record (`Pub` in mainView.tsx). -/
structure Pub where
  Title : String
  Link : String
  pmid : StrNum
  DP : String
  AU : Option String
  AB : Option String
  pmc_id : Option String
  tags : Option (List String)
deriving DecidableEq

/-- The `includeLogic` union type `"AND" | "OR"`. -/
inductive IncludeLogic where
  | AND
  | OR
deriving DecidableEq

/-- Filter criteria (`Filters` in mainView.tsx). -/
structure Filters where
  title : String
  link : String
  pmidMin : String
  pmidMax : String
  dateFrom : String
  dateTo : String
  includeTags : List String
  includeLogic : IncludeLogic
  excludeTags : List String
deriving DecidableEq

/-- JavaScript string falsiness: a string is falsy exactly when it is empty,
so `!filters.x` is `falsy filters.x`. -/
def falsy (s : String) : Bool := decide (s = "")

/-- Numeric value of a run of decimal digit characters. -/
def digitsVal (cs : List Char) : Nat :=
  cs.foldl (fun a c => a * 10 + (c.toNat - 48)) 0

/-- Model of JavaScript `Number(s)` for strings, on optionally signed integer
literals: the trimmed empty string is `0`, an optional sign followed by digits
is that integer, and everything else is NaN (`none`). -/
def jsStringToNumber (s : String) : Option Int :=
  let cs := ((s.data.dropWhile Char.isWhitespace).reverse.dropWhile Char.isWhitespace).reverse
  match cs with
  | [] => some 0
  | '-' :: ds =>
    if ds ≠ [] ∧ ds.all Char.isDigit then some (-(Int.ofNat (digitsVal ds))) else none
  | '+' :: ds =>
    if ds ≠ [] ∧ ds.all Char.isDigit then some (Int.ofNat (digitsVal ds)) else none
  | ds =>
    if ds.all Char.isDigit then some (Int.ofNat (digitsVal ds)) else none

/-- `Number(item.pmid)` where `pmid` is `string | number`. -/
def jsNumber : StrNum → Option Int
  | .num n => some n
  | .str s => jsStringToNumber s

/-- JavaScript `>=` on possibly-NaN numbers: false whenever either side is NaN. -/
def optGe (a b : Option Int) : Bool :=
  match a, b with
  | some x, some y => decide (x ≥ y)
  | _, _ => false

/-- JavaScript `<=` on possibly-NaN numbers: false whenever either side is NaN. -/
def optLe (a b : Option Int) : Bool :=
  match a, b with
  | some x, some y => decide (x ≤ y)
  | _, _ => false

/-- Split a character list on a separator character (like `String.split`). -/
def splitOnChar (sep : Char) : List Char → List (List Char)
  | [] => [[]]
  | c :: cs =>
    if c = sep then [] :: splitOnChar sep cs
    else
      match splitOnChar sep cs with
      | h :: t => (c :: h) :: t
      | [] => [[c]]

/-- A field of exactly `len` decimal digits, as a number. -/
def fixedDigits (cs : List Char) (len : Nat) : Option Nat :=
  if cs.length = len ∧ cs.all Char.isDigit then some (digitsVal cs) else none

def isLeap (y : Nat) : Bool :=
  y % 4 == 0 && (y % 100 != 0 || y % 400 == 0)

def daysInMonth (y m : Nat) : Nat :=
  if m = 2 then (if isLeap y then 29 else 28)
  else if m = 4 ∨ m = 6 ∨ m = 9 ∨ m = 11 then 30
  else 31

/-- Days since the Unix epoch of a civil date (standard era-based algorithm). -/
def daysFromCivil (y : Int) (m d : Nat) : Int :=
  let yAdj : Int := if m ≤ 2 then y - 1 else y
  let era : Int := yAdj.fdiv 400
  let yoe : Int := yAdj - era * 400
  let mp : Int := (Int.ofNat m + 9).emod 12
  let doy : Int := (153 * mp + 2).fdiv 5 + Int.ofNat d - 1
  let doe : Int := yoe * 365 + yoe.fdiv 4 - yoe.fdiv 100 + doy
  era * 146097 + doe - 719468

/-- `YYYY-MM-DD` as milliseconds since the epoch (UTC midnight). -/
def parseDateOnly (cs : List Char) : Option Int :=
  match splitOnChar '-' cs with
  | [ys, ms, ds] => do
    let y ← fixedDigits ys 4
    let m ← fixedDigits ms 2
    let d ← fixedDigits ds 2
    if 1 ≤ m ∧ m ≤ 12 ∧ 1 ≤ d ∧ d ≤ daysInMonth y m then
      some (daysFromCivil (Int.ofNat y) m d * 86400000)
    else none
  | _ => none

/-- `HH:MM:SS` as milliseconds. -/
def parseTimeMs (cs : List Char) : Option Int :=
  match splitOnChar ':' cs with
  | [hs, ms, ss] => do
    let h ← fixedDigits hs 2
    let mi ← fixedDigits ms 2
    let s ← fixedDigits ss 2
    if h ≤ 23 ∧ mi ≤ 59 ∧ s ≤ 59 then
      some (Int.ofNat ((h * 3600 + mi * 60 + s) * 1000))
    else none
  | _ => none

/-- Model of `new Date(s).getTime()` on the ISO-like strings this dataset
uses: `YYYY-MM-DD` and `YYYY-MM-DDTHH:MM:SSZ`. Every other string (including
the empty string) is an Invalid Date whose time value is NaN (`none`). -/
def parseDate (s : String) : Option Int :=
  match splitOnChar 'T' s.data with
  | [d] => parseDateOnly d
  | [d, t] =>
    match t.reverse with
    | 'Z' :: rt => do
      let dms ← parseDateOnly d
      let tms ← parseTimeMs rt.reverse
      some (dms + tms)
    | _ => none
  | _ => none

/-- Lower-cased character data of a string. -/
def lowerData (s : String) : List Char := s.data.map Char.toLower

/-- JavaScript `s.toLowerCase().includes(pat.toLowerCase())`. -/
def strIncludes (s pat : String) : Bool :=
  decide (List.IsInfix (lowerData pat) (lowerData s))

/-- `item.tags ?? []`. -/
def jsTags (item : Pub) : List String := item.tags.getD []

/-- `!filters.title || item.Title.toLowerCase().includes(filters.title.toLowerCase())`. -/
def titleMatch (item : Pub) (f : Filters) : Bool :=
  falsy f.title || strIncludes item.Title f.title

def linkMatch (item : Pub) (f : Filters) : Bool :=
  falsy f.link || strIncludes item.Link f.link

/-- `(!filters.pmidMin || Number(item.pmid) >= Number(filters.pmidMin)) &&
    (!filters.pmidMax || Number(item.pmid) <= Number(filters.pmidMax))`. -/
def pmidMatch (item : Pub) (f : Filters) : Bool :=
  (falsy f.pmidMin || optGe (jsNumber item.pmid) (jsStringToNumber f.pmidMin)) &&
  (falsy f.pmidMax || optLe (jsNumber item.pmid) (jsStringToNumber f.pmidMax))

/-- `(!filters.dateFrom || new Date(item.DP) >= new Date(filters.dateFrom)) &&
    (!filters.dateTo || new Date(item.DP) <= new Date(filters.dateTo))` —
relational operators on `Date`s compare their (possibly NaN) time values. -/
def dateMatch (item : Pub) (f : Filters) : Bool :=
  (falsy f.dateFrom || optGe (parseDate item.DP) (parseDate f.dateFrom)) &&
  (falsy f.dateTo || optLe (parseDate item.DP) (parseDate f.dateTo))

/-- `filters.includeTags.length === 0 || (AND ? every : some)`. -/
def includeMatch (item : Pub) (f : Filters) : Bool :=
  f.includeTags.length == 0 ||
  (match f.includeLogic with
   | .AND => f.includeTags.all (fun tag => (jsTags item).contains tag)
   | .OR => f.includeTags.any (fun tag => (jsTags item).contains tag))

/-- `filters.excludeTags.length === 0 || !filters.excludeTags.some(...)`. -/
def excludeMatch (item : Pub) (f : Filters) : Bool :=
  f.excludeTags.length == 0 ||
  !(f.excludeTags.any (fun tag => (jsTags item).contains tag))

/-- `matchesFilters` from mainView.tsx (lines 88-112). -/
def matchesFilters (item : Pub) (f : Filters) : Bool :=
  titleMatch item f && linkMatch item f && pmidMatch item f &&
  dateMatch item f && includeMatch item f && excludeMatch item f

/-- The `filtered` pass of MainView: `list.filter(item => matchesFilters(item, filters))`. -/
def filterPubs (l : List Pub) (f : Filters) : List Pub :=
  l.filter (fun item => matchesFilters item f)

/-- `keyof Pub`, the sortable field names. -/
inductive Field where
  | Title
  | Link
  | pmid
  | DP
  | AU
  | AB
  | pmc_id
  | tags
deriving DecidableEq

/-- `type Order = "asc" | "desc"`. -/
inductive Order where
  | asc
  | desc
deriving DecidableEq

/-- A JavaScript value as received by `compare`: a `Date`, a string, a number,
`undefined` (absent optional field), or an array of tag strings. -/
inductive JsVal where
  | vdate (t : Option Int)
  | vstr (s : String)
  | vnum (n : Int)
  | vundefined
  | varr (l : List String)
deriving DecidableEq

/-- A value after the `a instanceof Date ? a.getTime() : a` step of `compare`. -/
inductive JsPrim where
  | num (n : Option Int)
  | str (s : String)
  | undefined
  | arr (l : List String)
deriving DecidableEq

def toPrim : JsVal → JsPrim
  | .vdate t => .num t
  | .vstr s => .str s
  | .vnum n => .num (some n)
  | .vundefined => .undefined
  | .varr l => .arr l

/-- `A == null`: true only for `undefined` (and `null`); false for NaN. -/
def isNullish : JsPrim → Bool
  | .undefined => true
  | _ => false

/-- JavaScript `String(x)` on the values `compare` can receive. -/
def jsToString : JsPrim → String
  | .num none => "NaN"
  | .num (some n) => toString n
  | .str s => s
  | .undefined => "undefined"
  | .arr l => String.intercalate "," l

/-- A collation token: a maximal digit run (as a number) or a single
lower-cased character. -/
inductive Tok where
  | num (n : Nat)
  | ch (c : Char)
deriving DecidableEq

def tokenizeAux : List Char → Option Nat → List Tok
  | [], none => []
  | [], some n => [Tok.num n]
  | c :: cs, acc =>
    if c.isDigit then tokenizeAux cs (some ((acc.getD 0) * 10 + (c.toNat - 48)))
    else
      match acc with
      | some n => Tok.num n :: Tok.ch c.toLower :: tokenizeAux cs none
      | none => Tok.ch c.toLower :: tokenizeAux cs none

def tokenize (s : String) : List Tok := tokenizeAux s.data none

def tokCmp : Tok → Tok → Int
  | .num m, .num n => if m < n then -1 else if n < m then 1 else 0
  | .num _, .ch _ => -1
  | .ch _, .num _ => 1
  | .ch a, .ch b => if a < b then -1 else if b < a then 1 else 0

def lexCmp : List Tok → List Tok → Int
  | [], [] => 0
  | [], _ :: _ => -1
  | _ :: _, [] => 1
  | a :: as, b :: bs => if tokCmp a b = 0 then lexCmp as bs else tokCmp a b

/-- Model of `x.localeCompare(y, undefined, {numeric: true, sensitivity: "base"})`:
case-insensitive, with digit runs compared as numbers. -/
def localeCmp (x y : String) : Int := lexCmp (tokenize x) (tokenize y)

/-- `compare` from mainView.tsx (lines 66-74). A `none` result is NaN, which
arises exactly when both operands are numbers and at least one is NaN. -/
def compare (a b : JsVal) : Option Int :=
  let A := toPrim a
  let B := toPrim b
  if isNullish A && isNullish B then some 0
  else if isNullish A then some (-1)
  else if isNullish B then some 1
  else
    match A, B with
    | .num x, .num y =>
      (match x, y with
       | some x, some y => some (x - y)
       | _, _ => none)
    | A, B => some (localeCmp (jsToString A) (jsToString B))

def optStr : Option String → JsVal
  | some s => .vstr s
  | none => .vundefined

/-- `a[orderBy]` as the JavaScript value `compare` receives. -/
def getField (p : Pub) : Field → JsVal
  | .Title => .vstr p.Title
  | .Link => .vstr p.Link
  | .pmid =>
    match p.pmid with
    | .str s => .vstr s
    | .num n => .vnum n
  | .DP => .vstr p.DP
  | .AU => optStr p.AU
  | .AB => optStr p.AB
  | .pmc_id => optStr p.pmc_id
  | .tags =>
    match p.tags with
    | some l => .varr l
    | none => .vundefined

/-- `getComparator` from mainView.tsx (lines 75-82). For `"DP"` the operand is
`new Date(a.DP || "")`; `a.DP || ""` is literally `a.DP` for strings (both
branches give the same string), so it is written as `a.DP`. -/
def getComparator (order : Order) (orderBy : Field) (a b : Pub) : Option Int :=
  let va := if orderBy = Field.DP then JsVal.vdate (parseDate a.DP) else getField a orderBy
  let vb := if orderBy = Field.DP then JsVal.vdate (parseDate b.DP) else getField b orderBy
  match order with
  | .asc => compare va vb
  | .desc => (compare va vb).map Int.neg

/-- The composite comparator `cmp(a[0], b[0]) || a[1] - b[1]` used inside
`stableSort`: both `0` and `NaN` are falsy, so either falls through to the
original-index tiebreak. -/
def sortCmp {α : Type} (cmp : α → α → Option Int) (p q : α × Nat) : Int :=
  match cmp p.1 q.1 with
  | some v => if v = 0 then (p.2 : Int) - (q.2 : Int) else v
  | none => (p.2 : Int) - (q.2 : Int)

def pairLe {α : Type} (cmp : α → α → Option Int) (p q : α × Nat) : Bool :=
  decide (sortCmp cmp p q ≤ 0)

/-- Stable insertion: an element is placed before the first existing element
it compares less-or-equal to. -/
def jsInsert {α : Type} (le : α → α → Bool) (x : α) : List α → List α
  | [] => [x]
  | y :: l => if le x y then x :: y :: l else y :: jsInsert le x l

/-- Model of `Array.prototype.sort` (ECMAScript specifies it to be stable) as
a stable insertion sort. -/
def jsSort {α : Type} (le : α → α → Bool) : List α → List α
  | [] => []
  | x :: l => jsInsert le x (jsSort le l)

/-- `arr.map((el, i) => [el, i])`, decorating from starting index `k`. -/
def decorate {α : Type} : List α → Nat → List (α × Nat)
  | [], _ => []
  | x :: t, k => (x, k) :: decorate t (k + 1)

/-- `stableSort` from mainView.tsx (lines 83-87): decorate each element with
its original index, sort with the index tiebreak, undecorate. -/
def stableSort {α : Type} (arr : List α) (cmp : α → α → Option Int) : List α :=
  (jsSort (pairLe cmp) (decorate arr 0)).map Prod.fst

/-- The sort-key state `(orderBy, order)` of MainView. -/
structure SortState where
  orderBy : Field
  order : Order
deriving DecidableEq

/-- `handleSort` from mainView.tsx (lines 169-172): toggle direction on the
active field, otherwise activate the new field ascending. It is defined in the
component but not wired to any column header. -/
def handleSort (s : SortState) (property : Field) : SortState :=
  if s.orderBy = property then
    { s with order := match s.order with | .asc => .desc | .desc => .asc }
  else
    { orderBy := property, order := Order.asc }

/-- What the column-header `TableSortLabel` click handlers actually do:
`onClick={() => setOrderBy(property)}` — only the field changes, the
direction is left as it was. -/
def headerClick (s : SortState) (property : Field) : SortState :=
  { s with orderBy := property }

/-- The filter/sort state of MainView that feeds the table. -/
structure ViewState where
  filters : Filters
  orderBy : Field
  order : Order
deriving DecidableEq

/-- The default/empty criteria object of MainView (also what `clearFilters`
installs). -/
def emptyFilters : Filters :=
  { title := "", link := "", pmidMin := "", pmidMax := "", dateFrom := "", dateTo := "",
    includeTags := [], includeLogic := .AND, excludeTags := [] }

def initialState : ViewState :=
  { filters := emptyFilters, orderBy := Field.Title, order := Order.asc }

/-- `applyFilters` replaces the whole criteria object atomically. -/
def applyFilters (s : ViewState) (next : Filters) : ViewState :=
  { s with filters := next }

/-- `clearFilters` from mainView.tsx (lines 203-213). -/
def clearFilters (s : ViewState) : ViewState :=
  { s with filters := emptyFilters }

/-- The `filtered`/`rows` pipeline of MainView (lines 151-159). -/
def displayedRows (pubs : List Pub) (s : ViewState) : List Pub :=
  stableSort (filterPubs pubs s.filters) (getComparator s.order s.orderBy)

/-! Concrete records and criteria used by the scenario theorems and witnesses. -/

def pubAlpha : Pub :=
  { Title := "Alpha", Link := "https://example.org/a", pmid := .num 100,
    DP := "2020-01-01", AU := none, AB := none, pmc_id := none, tags := none }

def pubBeta : Pub :=
  { Title := "Beta", Link := "https://example.org/b", pmid := .num 200,
    DP := "2021-02-02", AU := none, AB := none, pmc_id := none, tags := none }

def pubGamma : Pub :=
  { Title := "Gamma", Link := "https://example.org/c", pmid := .num 300,
    DP := "2022-03-03", AU := none, AB := none, pmc_id := none, tags := none }

def scenarioFilters : Filters := { emptyFilters with pmidMin := "150" }

/-- C9: with PMIDs 100/200/300 and titles Alpha/Beta/Gamma, filtering with
pmidMin = "150" keeps exactly Beta and Gamma in original order, and sorting
that result by Title descending yields Gamma before Beta. -/
theorem c9_scenario :
    filterPubs [pubAlpha, pubBeta, pubGamma] scenarioFilters = [pubBeta, pubGamma]
    ∧ stableSort (filterPubs [pubAlpha, pubBeta, pubGamma] scenarioFilters)
        (getComparator Order.desc Field.Title) = [pubGamma, pubBeta] := by
  decide

def pubMorning : Pub :=
  { Title := "Morning", Link := "https://example.org/m", pmid := .num 10,
    DP := "2024-01-15T10:00:00Z", AU := none, AB := none, pmc_id := none, tags := none }

def pubMidnight : Pub :=
  { Title := "Midnight", Link := "https://example.org/n", pmid := .num 11,
    DP := "2024-01-15", AU := none, AB := none, pmc_id := none, tags := none }

def filtersToJan15 : Filters := { emptyFilters with dateTo := "2024-01-15" }

/-- Calendar day (days since the epoch) of a parsed time value. -/
def dayOf (t : Int) : Int := t.fdiv 86400000

/-- C6: the date-range check of mainView.tsx compares full timestamps, so the
time-of-day component does affect inclusion: two records on the same calendar
day as the dateTo bound are treated differently when one carries a time of
day. -/
theorem c6_time_of_day_affects_date_filter :
    (parseDate pubMorning.DP).map dayOf = (parseDate pubMidnight.DP).map dayOf
    ∧ (parseDate pubMidnight.DP).map dayOf = (parseDate filtersToJan15.dateTo).map dayOf
    ∧ dateMatch pubMorning filtersToJan15 = false
    ∧ dateMatch pubMidnight filtersToJan15 = true := by
  decide

/-- C7: the column-header click handlers call only `setOrderBy`, so clicking
the already-active field does not flip the direction and clicking a new field
does not reset it to ascending; the unused `handleSort` implements exactly
the flip/reset behaviour. -/
theorem c7_header_click_keeps_direction :
    headerClick { orderBy := Field.Title, order := Order.desc } Field.pmid
      = { orderBy := Field.pmid, order := Order.desc }
    ∧ headerClick { orderBy := Field.Title, order := Order.desc } Field.Title
      = { orderBy := Field.Title, order := Order.desc }
    ∧ handleSort { orderBy := Field.Title, order := Order.desc } Field.pmid
      = { orderBy := Field.pmid, order := Order.asc }
    ∧ handleSort { orderBy := Field.Title, order := Order.desc } Field.Title
      = { orderBy := Field.Title, order := Order.asc } := by
  decide

/-! Stability of the sort engine. `jsSort` only ever inserts an element in
front of the first existing element it compares `le` to, so a pair already in
`le`-order in the input stays in that order in the output — no hypotheses on
the comparator are needed. -/

theorem jsInsert_sublist_self {α : Type} (le : α → α → Bool) (x : α) :
    ∀ l : List α, List.Sublist l (jsInsert le x l)
  | [] => by simp [jsInsert]
  | y :: t => by
    simp only [jsInsert]
    by_cases h : le x y = true
    · rw [if_pos h]
      exact List.sublist_cons_self x (y :: t)
    · rw [if_neg h]
      exact (jsInsert_sublist_self le x t).cons₂ y

theorem sublist_jsInsert {α : Type} (le : α → α → Bool) (x : α) {s l : List α}
    (h : List.Sublist s l) : List.Sublist s (jsInsert le x l) :=
  h.trans (jsInsert_sublist_self le x l)

theorem jsInsert_perm {α : Type} (le : α → α → Bool) (x : α) :
    ∀ l : List α, List.Perm (jsInsert le x l) (x :: l)
  | [] => List.Perm.refl [x]
  | y :: t => by
    simp only [jsInsert]
    by_cases h : le x y = true
    · rw [if_pos h]
    · rw [if_neg h]
      exact ((jsInsert_perm le x t).cons y).trans (List.Perm.swap x y t)

theorem jsSort_perm {α : Type} (le : α → α → Bool) :
    ∀ l : List α, List.Perm (jsSort le l) l
  | [] => List.Perm.refl []
  | x :: t => by
    simp only [jsSort]
    exact (jsInsert_perm le x (jsSort le t)).trans ((jsSort_perm le t).cons x)

theorem jsInsert_pair {α : Type} (le : α → α → Bool) {x y : α} (hxy : le x y = true) :
    ∀ {l : List α}, List.Sublist [y] l → List.Sublist [x, y] (jsInsert le x l)
  | [], h => by cases h
  | z :: t, h => by
    simp only [jsInsert]
    by_cases hz : le x z = true
    · rw [if_pos hz]
      exact h.cons₂ x
    · rw [if_neg hz]
      cases h with
      | cons _ h2 => exact (jsInsert_pair le hxy h2).cons z
      | cons₂ _ h2 => exact absurd hxy hz

theorem jsSort_pair_stable {α : Type} (le : α → α → Bool) {p q : α}
    (hpq : le p q = true) :
    ∀ {l : List α}, List.Sublist [p, q] l → List.Sublist [p, q] (jsSort le l)
  | [], h => by cases h
  | x :: t, h => by
    simp only [jsSort]
    cases h with
    | cons _ h2 => exact sublist_jsInsert le x (jsSort_pair_stable le hpq h2)
    | cons₂ _ h2 =>
      refine jsInsert_pair le hpq (List.singleton_sublist.mpr ?_)
      exact ((jsSort_perm le t).mem_iff).mpr (List.singleton_sublist.mp h2)

theorem map_fst_decorate {α : Type} :
    ∀ (l : List α) (k : Nat), (decorate l k).map Prod.fst = l
  | [], _ => rfl
  | x :: t, k => by simp [decorate, map_fst_decorate t (k + 1)]

theorem stableSort_perm {α : Type} (arr : List α) (cmp : α → α → Option Int) :
    List.Perm (stableSort arr cmp) arr := by
  have h := (jsSort_perm (pairLe cmp) (decorate arr 0)).map Prod.fst
  simpa [stableSort, map_fst_decorate] using h

theorem mem_decorate {α : Type} :
    ∀ (l : List α) (k i : Nat) (h : i < l.length),
      (l.get ⟨i, h⟩, k + i) ∈ decorate l k
  | x :: t, k, 0, _ => by simp [decorate]
  | x :: t, k, i + 1, h => by
    have h2 : i < t.length := Nat.lt_of_succ_lt_succ h
    have hm := mem_decorate t (k + 1) i h2
    have e : (k + 1) + i = k + (i + 1) := by omega
    simp only [decorate]
    refine List.mem_cons_of_mem _ ?_
    have eg : (x :: t).get ⟨i + 1, h⟩ = t.get ⟨i, h2⟩ := rfl
    rw [eg, ← e]
    exact hm

theorem pair_sublist_decorate {α : Type} :
    ∀ (l : List α) (k i j : Nat) (hij : i < j) (hj : j < l.length),
      List.Sublist [(l.get ⟨i, Nat.lt_trans hij hj⟩, k + i), (l.get ⟨j, hj⟩, k + j)]
        (decorate l k)
  | [], _, _, _, _, hj => absurd hj (Nat.not_lt_zero _)
  | _ :: _, _, _, 0, hij, _ => absurd hij (Nat.not_lt_zero _)
  | x :: t, k, 0, j + 1, hij, hj => by
    have hj2 : j < t.length := Nat.lt_of_succ_lt_succ hj
    have hq := mem_decorate t (k + 1) j hj2
    have e : (k + 1) + j = k + (j + 1) := by omega
    simp only [decorate]
    refine List.Sublist.cons₂ _ ?_
    have eg : (x :: t).get ⟨j + 1, hj⟩ = t.get ⟨j, hj2⟩ := rfl
    rw [eg, ← e]
    exact List.singleton_sublist.mpr hq
  | x :: t, k, i + 1, j + 1, hij, hj => by
    have hij2 : i < j := Nat.lt_of_succ_lt_succ hij
    have hj2 : j < t.length := Nat.lt_of_succ_lt_succ hj
    have hs := pair_sublist_decorate t (k + 1) i j hij2 hj2
    have e1 : (k + 1) + i = k + (i + 1) := by omega
    have e2 : (k + 1) + j = k + (j + 1) := by omega
    simp only [decorate]
    refine List.Sublist.cons _ ?_
    have eg1 : (x :: t).get ⟨i + 1, Nat.lt_trans hij hj⟩ = t.get ⟨i, Nat.lt_trans hij2 hj2⟩ := rfl
    have eg2 : (x :: t).get ⟨j + 1, hj⟩ = t.get ⟨j, hj2⟩ := rfl
    rw [eg1, eg2, ← e1, ← e2]
    exact hs

/-- A comparator tie (`0` or `NaN`) makes the composite sort key fall back to
the index tiebreak, so the earlier-indexed element compares `le`. -/
theorem pairLe_of_tie {α : Type} (cmp : α → α → Option Int) (a b : α) (i j : Nat)
    (hij : i < j) (htie : cmp a b = some 0 ∨ cmp a b = none) :
    pairLe cmp (a, i) (b, j) = true := by
  unfold pairLe sortCmp
  rcases htie with h | h <;> rw [h] <;> simp <;> omega

/-- Any comparator-tied pair keeps its input order through the decorated sort. -/
theorem stable_pair_of_tie {α : Type} (arr : List α) (cmp : α → α → Option Int)
    (i j : Nat) (hij : i < j) (hj : j < arr.length)
    (htie : cmp (arr.get ⟨i, Nat.lt_trans hij hj⟩) (arr.get ⟨j, hj⟩) = some 0
          ∨ cmp (arr.get ⟨i, Nat.lt_trans hij hj⟩) (arr.get ⟨j, hj⟩) = none) :
    List.Sublist [(arr.get ⟨i, Nat.lt_trans hij hj⟩, i), (arr.get ⟨j, hj⟩, j)]
      (jsSort (pairLe cmp) (decorate arr 0)) := by
  have hle := pairLe_of_tie cmp (arr.get ⟨i, Nat.lt_trans hij hj⟩) (arr.get ⟨j, hj⟩) i j hij htie
  have hsub := pair_sublist_decorate arr 0 i j hij hj
  simp only [Nat.zero_add] at hsub
  exact jsSort_pair_stable _ hle hsub

/-- C2: the sort engine is stable. Records the comparator judges equal (a `0`
or NaN comparator result, either of which falls through to the original-index
tiebreak) appear in the decorated sorted list in their input index order, and
`stableSort` is exactly that list with the indices stripped. -/
theorem c2_stable_sort (arr : List Pub) (order : Order) (orderBy : Field)
    (i j : Nat) (hij : i < j) (hj : j < arr.length)
    (htie : getComparator order orderBy (arr.get ⟨i, Nat.lt_trans hij hj⟩) (arr.get ⟨j, hj⟩) = some 0
          ∨ getComparator order orderBy (arr.get ⟨i, Nat.lt_trans hij hj⟩) (arr.get ⟨j, hj⟩) = none) :
    stableSort arr (getComparator order orderBy)
      = (jsSort (pairLe (getComparator order orderBy)) (decorate arr 0)).map Prod.fst
    ∧ List.Sublist [(arr.get ⟨i, Nat.lt_trans hij hj⟩, i), (arr.get ⟨j, hj⟩, j)]
        (jsSort (pairLe (getComparator order orderBy)) (decorate arr 0)) :=
  ⟨rfl, stable_pair_of_tie arr (getComparator order orderBy) i j hij hj htie⟩

def pubDupA : Pub :=
  { Title := "Alpha", Link := "https://example.org/d1", pmid := .num 1,
    DP := "2020-01-01", AU := none, AB := none, pmc_id := none, tags := none }

def pubDupB : Pub :=
  { Title := "alpha", Link := "https://example.org/d2", pmid := .num 2,
    DP := "2020-01-02", AU := none, AB := none, pmc_id := none, tags := none }

theorem c2_stable_sort_witness :
    stableSort [pubDupA, pubDupB] (getComparator Order.asc Field.Title)
      = (jsSort (pairLe (getComparator Order.asc Field.Title)) (decorate [pubDupA, pubDupB] 0)).map Prod.fst
    ∧ List.Sublist [(pubDupA, 0), (pubDupB, 1)]
        (jsSort (pairLe (getComparator Order.asc Field.Title)) (decorate [pubDupA, pubDupB] 0)) :=
  c2_stable_sort [pubDupA, pubDupB] Order.asc Field.Title 0 1 (by decide) (by decide)
    (Or.inl (by decide))

/-! Date sorting: an Invalid Date has a NaN time value, so `compare` returns
NaN for it (the `A == null` branches do not fire — NaN is not null), and the
sort treats the pair as a tie. -/

theorem compare_vdate_none_left (t : Option Int) :
    compare (JsVal.vdate none) (JsVal.vdate t) = none := by
  simp [compare, toPrim, isNullish]

theorem compare_vdate_none_right (t : Option Int) :
    compare (JsVal.vdate t) (JsVal.vdate none) = none := by
  cases t <;> simp [compare, toPrim, isNullish]

theorem getComparator_DP_none (order : Order) (a b : Pub)
    (h : parseDate a.DP = none ∨ parseDate b.DP = none) :
    getComparator order Field.DP a b = none := by
  rcases h with h | h <;> cases order <;>
    simp [getComparator, h, compare_vdate_none_left, compare_vdate_none_right]

def pubDated : Pub :=
  { Title := "Dated", Link := "https://example.org/p", pmid := .num 21,
    DP := "2021-06-01", AU := none, AB := none, pmc_id := none, tags := none }

def pubNoDate : Pub :=
  { Title := "NoDate", Link := "https://example.org/q", pmid := .num 22,
    DP := "", AU := none, AB := none, pmc_id := none, tags := none }

/-- C5, counterexample: sorting by DP ascending, a record with a missing date
that follows a record with a parsable date stays after it — it is not ordered
first. The NaN comparison falls through to the index tiebreak, so the pair
keeps its input order. -/
theorem c5_counterexample :
    parseDate pubNoDate.DP = none
    ∧ (parseDate pubDated.DP).isSome = true
    ∧ stableSort [pubDated, pubNoDate] (getComparator Order.asc Field.DP)
        = [pubDated, pubNoDate] := by
  decide

/-- C5, amended: when sorting by DP (either direction), a record pair in which
either date fails to parse is a comparator tie (NaN, which `||` treats as
falsy), so the two records keep their original relative order in the decorated
sorted list — missing dates keep their position instead of sorting first. -/
theorem c5_missing_date_tie (arr : List Pub) (order : Order)
    (i j : Nat) (hij : i < j) (hj : j < arr.length)
    (hmiss : parseDate (arr.get ⟨i, Nat.lt_trans hij hj⟩).DP = none
           ∨ parseDate (arr.get ⟨j, hj⟩).DP = none) :
    List.Sublist [(arr.get ⟨i, Nat.lt_trans hij hj⟩, i), (arr.get ⟨j, hj⟩, j)]
      (jsSort (pairLe (getComparator order Field.DP)) (decorate arr 0)) := by
  refine stable_pair_of_tie arr (getComparator order Field.DP) i j hij hj (Or.inr ?_)
  exact getComparator_DP_none order _ _ hmiss

theorem c5_missing_date_tie_witness :
    List.Sublist [(pubDated, 0), (pubNoDate, 1)]
      (jsSort (pairLe (getComparator Order.asc Field.DP)) (decorate [pubDated, pubNoDate] 0)) :=
  c5_missing_date_tie [pubDated, pubNoDate] Order.asc 0 1 (by decide) (by decide)
    (Or.inr (by decide))

/-! The filter predicate, claim by claim. -/

theorem falsy_eq_false {s : String} (h : s ≠ "") : falsy s = false := by
  simp [falsy, h]

theorem matchesFilters_eq_true (r : Pub) (f : Filters) :
    matchesFilters r f = true ↔
      titleMatch r f = true ∧ linkMatch r f = true ∧ pmidMatch r f = true ∧
      dateMatch r f = true ∧ includeMatch r f = true ∧ excludeMatch r f = true := by
  simp [matchesFilters, Bool.and_eq_true, and_assoc]

/-- C1: with both PMID bounds active and numeric and a record whose pmid
coerces to a number, the record passes the filter only if the bounds hold, a
record within bounds that meets every other constraint does appear, and a
blank bound leaves its side unconstrained. -/
theorem c1_pmid_range (l : List Pub) (f : Filters) (r : Pub) (nr nmin nmax : Int)
    (hr : jsNumber r.pmid = some nr)
    (hmin : f.pmidMin ≠ "") (hminv : jsStringToNumber f.pmidMin = some nmin)
    (hmax : f.pmidMax ≠ "") (hmaxv : jsStringToNumber f.pmidMax = some nmax) :
    (r ∈ filterPubs l f → nmin ≤ nr ∧ nr ≤ nmax)
    ∧ (r ∈ l → nmin ≤ nr → nr ≤ nmax →
        titleMatch r f = true → linkMatch r f = true → dateMatch r f = true →
        includeMatch r f = true → excludeMatch r f = true → r ∈ filterPubs l f)
    ∧ (∀ g : Filters, g.pmidMin = "" →
        pmidMatch r g = (falsy g.pmidMax || optLe (jsNumber r.pmid) (jsStringToNumber g.pmidMax))) := by
  have hpm : pmidMatch r f = true ↔ (nmin ≤ nr ∧ nr ≤ nmax) := by
    simp [pmidMatch, falsy_eq_false hmin, falsy_eq_false hmax, hr, hminv, hmaxv,
      optGe, optLe, ge_iff_le]
  refine ⟨?_, ?_, ?_⟩
  · intro hmem
    have hm := (List.mem_filter.mp hmem).2
    rw [matchesFilters_eq_true] at hm
    exact hpm.mp hm.2.2.1
  · intro hl h1 h2 ht hlk hd hi he
    refine List.mem_filter.mpr ⟨hl, ?_⟩
    rw [matchesFilters_eq_true]
    exact ⟨ht, hlk, hpm.mpr ⟨h1, h2⟩, hd, hi, he⟩
  · intro g hg
    simp [pmidMatch, falsy, hg]

def boundFilters : Filters := { emptyFilters with pmidMin := "50", pmidMax := "150" }

theorem c1_pmid_range_witness : pubAlpha ∈ filterPubs [pubAlpha] boundFilters :=
  (c1_pmid_range [pubAlpha] boundFilters pubAlpha 100 50 150 (by decide) (by decide)
      (by decide) (by decide) (by decide)).2.1
    (by decide) (by decide) (by decide) (by decide) (by decide) (by decide)
    (by decide) (by decide)

/-- C3: tag inclusion is vacuous on an empty include-set, requires every
included tag under AND and at least one under OR; tag exclusion is vacuous on
an empty exclude-set, otherwise requires that no excluded tag is present, and
an excluded record never appears in any filtered result. -/
theorem c3_tag_filters (r : Pub) (f : Filters) :
    (f.includeTags = [] → includeMatch r f = true)
    ∧ (f.includeLogic = IncludeLogic.AND →
        (includeMatch r f = true ↔ (f.includeTags = [] ∨ ∀ t ∈ f.includeTags, t ∈ jsTags r)))
    ∧ (f.includeLogic = IncludeLogic.OR →
        (includeMatch r f = true ↔ (f.includeTags = [] ∨ ∃ t ∈ f.includeTags, t ∈ jsTags r)))
    ∧ (f.excludeTags = [] → excludeMatch r f = true)
    ∧ (excludeMatch r f = true ↔ (f.excludeTags = [] ∨ ∀ t ∈ f.excludeTags, t ∉ jsTags r))
    ∧ (excludeMatch r f = false → ∀ l : List Pub, r ∉ filterPubs l f) := by
  refine ⟨?_, ?_, ?_, ?_, ?_, ?_⟩
  · intro h
    simp [includeMatch, h]
  · intro h
    simp [includeMatch, h, List.length_eq_zero, List.all_eq_true]
  · intro h
    simp [includeMatch, h, List.length_eq_zero, List.any_eq_true]
  · intro h
    simp [excludeMatch, h]
  · simp [excludeMatch, List.length_eq_zero, List.any_eq_true]
  · intro h l hmem
    have hm := (List.mem_filter.mp hmem).2
    rw [matchesFilters_eq_true] at hm
    rw [hm.2.2.2.2.2] at h
    cases h

def pubTagged : Pub :=
  { Title := "Tagged", Link := "https://example.org/t", pmid := .num 7,
    DP := "2019-09-09", AU := none, AB := none, pmc_id := none,
    tags := some ["genomics", "mice"] }

def tagFilters : Filters := { emptyFilters with includeTags := ["genomics"] }

theorem c3_tag_filters_witness : includeMatch pubTagged tagFilters = true :=
  ((c3_tag_filters pubTagged tagFilters).2.1 rfl).mpr (Or.inr (by decide))

/-- C4: the filter predicate is a total function that degrades to a
non-match on bad data: a NaN pmid fails any active PMID bound, an unparsable
date fails any active date bound, and an absent tag list behaves exactly like
an empty one. -/
theorem c4_bad_values_degrade (r : Pub) (f : Filters) :
    (jsNumber r.pmid = none → f.pmidMin ≠ "" ∨ f.pmidMax ≠ "" → pmidMatch r f = false)
    ∧ (parseDate r.DP = none → f.dateFrom ≠ "" ∨ f.dateTo ≠ "" → dateMatch r f = false)
    ∧ (r.tags = none →
        matchesFilters r f = matchesFilters { r with tags := some [] } f) := by
  refine ⟨?_, ?_, ?_⟩
  · intro hn hb
    rcases hb with hb | hb
    · simp [pmidMatch, falsy_eq_false hb, hn, optGe]
    · simp [pmidMatch, falsy_eq_false hb, hn, optLe]
  · intro hn hb
    rcases hb with hb | hb
    · simp [dateMatch, falsy_eq_false hb, hn, optGe]
    · simp [dateMatch, falsy_eq_false hb, hn, optLe]
  · intro hn
    simp [matchesFilters, titleMatch, linkMatch, pmidMatch, dateMatch,
      includeMatch, excludeMatch, jsTags, hn]

def pubBadData : Pub :=
  { Title := "Bad", Link := "https://example.org/x", pmid := .str "PMC999",
    DP := "June 2013", AU := none, AB := none, pmc_id := none, tags := none }

theorem c4_bad_values_degrade_witness : pmidMatch pubBadData boundFilters = false :=
  (c4_bad_values_degrade pubBadData boundFilters).1 (by decide) (Or.inl (by decide))

/-! Clearing filters. -/

theorem matchesFilters_empty (r : Pub) : matchesFilters r emptyFilters = true := by
  simp [matchesFilters, titleMatch, linkMatch, pmidMatch, dateMatch,
    includeMatch, excludeMatch, emptyFilters, falsy]

theorem foldl_applyFilters_sort (fs : List Filters) :
    ∀ s : ViewState, (fs.foldl applyFilters s).orderBy = s.orderBy
      ∧ (fs.foldl applyFilters s).order = s.order := by
  induction fs with
  | nil => intro s; exact ⟨rfl, rfl⟩
  | cons g t ih => intro s; simpa [applyFilters] using ih { s with filters := g }

/-- C8: after any sequence of applied criteria, clearing restores the empty
default criteria, which matches every record, so the displayed result is the
whole dataset in the (still default) Title-ascending sort order, and every
original record appears in it. -/
theorem c8_clear_restores (pubs : List Pub) (fs : List Filters) :
    (clearFilters (fs.foldl applyFilters initialState)).filters = emptyFilters
    ∧ (∀ r : Pub, matchesFilters r emptyFilters = true)
    ∧ displayedRows pubs (clearFilters (fs.foldl applyFilters initialState))
        = stableSort pubs (getComparator Order.asc Field.Title)
    ∧ (∀ r ∈ pubs, r ∈ displayedRows pubs (clearFilters (fs.foldl applyFilters initialState))) := by
  have hOb := (foldl_applyFilters_sort fs initialState).1
  have hOr := (foldl_applyFilters_sort fs initialState).2
  have hfe : filterPubs pubs emptyFilters = pubs :=
    List.filter_eq_self.mpr (fun a _ => matchesFilters_empty a)
  have hdisp : displayedRows pubs (clearFilters (fs.foldl applyFilters initialState))
      = stableSort pubs (getComparator Order.asc Field.Title) := by
    have he : displayedRows pubs (clearFilters (fs.foldl applyFilters initialState))
        = stableSort (filterPubs pubs emptyFilters)
            (getComparator (fs.foldl applyFilters initialState).order
              (fs.foldl applyFilters initialState).orderBy) := rfl
    rw [he, hOb, hOr, hfe]
    rfl
  refine ⟨rfl, matchesFilters_empty, hdisp, ?_⟩
  intro r hr
  rw [hdisp]
  exact (stableSort_perm pubs (getComparator Order.asc Field.Title)).mem_iff.mpr hr

theorem c8_clear_restores_witness :
    displayedRows [pubBeta, pubAlpha] (clearFilters (List.foldl applyFilters initialState [boundFilters]))
      = stableSort [pubBeta, pubAlpha] (getComparator Order.asc Field.Title)
    ∧ pubAlpha ∈ displayedRows [pubBeta, pubAlpha]
        (clearFilters (List.foldl applyFilters initialState [boundFilters])) :=
  ⟨(c8_clear_restores [pubBeta, pubAlpha] [boundFilters]).2.2.1,
   (c8_clear_restores [pubBeta, pubAlpha] [boundFilters]).2.2.2 pubAlpha (by decide)⟩

/-- C10: the filter pass is a subsequence of the input: it is a sublist (so
nothing is synthesized and relative order is preserved), membership is
exactly "was in the input and matches", and each record's multiplicity is
preserved when it matches and zero otherwise. -/
theorem c10_filter_subsequence (l : List Pub) (f : Filters) :
    List.Sublist (filterPubs l f) l
    ∧ (∀ r : Pub, r ∈ filterPubs l f ↔ r ∈ l ∧ matchesFilters r f = true)
    ∧ (∀ r : Pub, (filterPubs l f).count r
        = if matchesFilters r f = true then l.count r else 0) := by
  refine ⟨List.filter_sublist l, fun r => List.mem_filter, fun r => ?_⟩
  by_cases h : matchesFilters r f = true
  · rw [if_pos h]
    exact List.count_filter h
  · rw [if_neg h]
    refine List.count_eq_zero.mpr ?_
    intro hmem
    exact h (List.mem_filter.mp hmem).2

theorem c10_filter_subsequence_witness :
    List.Sublist (filterPubs [pubAlpha, pubBeta] boundFilters) [pubAlpha, pubBeta]
    ∧ (filterPubs [pubAlpha, pubBeta] boundFilters).count pubAlpha
        = if matchesFilters pubAlpha boundFilters = true then ([pubAlpha, pubBeta]).count pubAlpha else 0 :=
  ⟨(c10_filter_subsequence [pubAlpha, pubBeta] boundFilters).1,
   (c10_filter_subsequence [pubAlpha, pubBeta] boundFilters).2.2 pubAlpha⟩

end Spike
